import Mathlib

/-
A shallow embedding of src/src/core/index.rs: segment identities, the index
metadata catalog, its persistence protocol, segment addressing, and the
durability-sync sequence. Pure functions mirror the Rust functions; the
mutable state behind the two RwLocks (metadata catalog, storage handle) is
threaded explicitly, and lock poisoning is a boolean flag per lock. A call
that the source performs with .unwrap() on a failed acquisition or decode is
modelled as the distinguished outcome Res.panicked.
-/

/-- One lowercase hexadecimal digit (0-9 then a-f), as used by
`Uuid::to_simple_string`. -/
def hexDigitChar (n : Nat) : Char :=
  Char.ofNat (if n < 10 then 48 + n else 87 + n)

/-- Fixed-width big-endian lowercase hexadecimal rendering of a natural
number: `hexFixed w n` is exactly `w` digits. -/
def hexFixed : Nat → Nat → List Char
  | 0, _ => []
  | w + 1, n => hexFixed w (n / 16) ++ [hexDigitChar (n % 16)]

/-- Value of one lowercase hexadecimal digit character, if it is one. -/
def hexDigitVal (c : Char) : Option Nat :=
  if 48 ≤ c.toNat ∧ c.toNat ≤ 57 then some (c.toNat - 48)
  else if 97 ≤ c.toNat ∧ c.toNat ≤ 102 then some (c.toNat - 87)
  else none

/-- Parse a hexadecimal string as a sequence of bytes, two digits per byte;
fails on any non-digit or on odd length. -/
def parseHexBytes : List Char → Option (List Nat)
  | [] => some []
  | [_] => none
  | c1 :: c2 :: rest =>
    match hexDigitVal c1, hexDigitVal c2, parseHexBytes rest with
    | some h, some l, some bs => some ((h * 16 + l) :: bs)
    | _, _, _ => none

/-- `SegmentId(Uuid)` from index.rs: a 128-bit identity, held as its 16
bytes (each < 256, length 16, see `SegmentId.WF`). -/
structure SegmentId where
  bytes : List Nat

deriving instance DecidableEq for SegmentId

/-- Well-formedness of the underlying `Uuid`: exactly 16 bytes. -/
def SegmentId.WF (s : SegmentId) : Prop :=
  s.bytes.length = 16 ∧ ∀ b ∈ s.bytes, b < 256

instance (s : SegmentId) : Decidable s.WF :=
  inferInstanceAs (Decidable (s.bytes.length = 16 ∧ ∀ b ∈ s.bytes, b < 256))

/-- `SegmentId::uuid_string`, i.e. `Uuid::to_simple_string`: each byte as two
lowercase hexadecimal digits, concatenated. -/
def SegmentId.uuid_string (s : SegmentId) : String :=
  String.mk ((s.bytes.map (hexFixed 2)).flatten)

/-- The 128-bit value of the identity (bytes combined big-endian). -/
def SegmentId.val (s : SegmentId) : Nat :=
  s.bytes.foldl (fun a b => a * 256 + b) 0

/-- Modelled from the spec: `core::schema::Schema` is outside this file and
the spec treats it as "an opaque, serializable value", so it is an
uninterpreted string payload. -/
structure Schema where
  raw : String

deriving instance DecidableEq for Schema

/-- `Schema::new()`. -/
def Schema.new : Schema := ⟨""⟩

/-- `IndexMeta` from index.rs: the committed segment list plus the schema
snapshot. -/
structure IndexMeta where
  segments : List SegmentId
  schema : Schema

deriving instance DecidableEq for IndexMeta

/-- `IndexMeta::with_schema`: empty segment list, given schema. -/
def IndexMeta.with_schema (s : Schema) : IndexMeta := ⟨[], s⟩

/-- Modelled from the spec: the catalog file is a "self-describing serialized
document" holding a segments array of hex identities and an opaque schema;
the JSON text layer (rustc_serialize, outside src) is modelled as JSON
trees. -/
inductive Json where
  | str : String → Json
  | arr : List Json → Json
  | obj : List (String × Json) → Json

/-- Modelled from the spec: encoder side of the catalog document — segment
identities as their fixed-length lowercase hexadecimal strings, in list
order, plus the schema payload. -/
def IndexMeta.encode (m : IndexMeta) : Json :=
  Json.obj [("segments", Json.arr (m.segments.map (fun s => Json.str s.uuid_string))),
            ("schema", Json.str m.schema.raw)]

/-- Modelled from the spec: decode one serialized segment identity — a
string of exactly 32 hexadecimal digits (16 bytes); anything else fails. -/
def decodeSegmentId : Json → Option SegmentId
  | Json.str s =>
    match parseHexBytes s.data with
    | some bs => if bs.length = 16 then some ⟨bs⟩ else none
    | none => none
  | _ => none

/-- Decode a list of serialized segment identities, failing if any element
fails. -/
def decodeSegmentIds : List Json → Option (List SegmentId)
  | [] => some []
  | j :: js =>
    match decodeSegmentId j, decodeSegmentIds js with
    | some s, some ss => some (s :: ss)
    | _, _ => none

/-- Modelled from the spec: decoder side of the catalog document; "decoding
must never silently succeed on garbage input", so any shape other than an
object carrying a well-formed segments array and a schema fails. -/
def IndexMeta.decode (j : Json) : Option IndexMeta :=
  match j with
  | Json.obj fields =>
    match fields.lookup "segments", fields.lookup "schema" with
    | some (Json.arr js), some (Json.str r) =>
      match decodeSegmentIds js with
      | some ss => some ⟨ss, ⟨r⟩⟩
      | none => none
    | _, _ => none
  | _ => none

/-- The `io::Error` values the embedding distinguishes: `NotFound` versus any
other kind (carrying its message). -/
inductive IoErr where
  | notFound : IoErr
  | other : String → IoErr

deriving instance DecidableEq for IoErr

/-- Modelled from the spec: the Storage Abstraction contract (open_read,
atomic_write, sync, sync_directory over named paths); the backends
(`RAMDirectory`, `MmapDirectory`) live outside this file. `files` is the
stored content per path, `writeFails` makes `atomic_write` report an I/O
failure, and `syncRes` / `syncDirRes` are the backend's answers to the
durability calls. -/
structure Dir where
  files : List (String × Json)
  writeFails : Bool
  syncRes : String → Except IoErr Unit
  syncDirRes : Except IoErr Unit

/-- `Directory::open_read`: fails with NotFound if the path is absent. -/
def Dir.open_read (d : Dir) (p : String) : Except IoErr Json :=
  match d.files.lookup p with
  | some j => Except.ok j
  | none => Except.error IoErr.notFound

/-- `Directory::atomic_write`: full replacement of the content at the path. -/
def Dir.atomic_write (d : Dir) (p : String) (v : Json) : Except IoErr Dir :=
  if d.writeFails then Except.error (IoErr.other "write failed")
  else Except.ok { d with files := (p, v) :: d.files.filter (fun kv => kv.1 != p) }

/-- `Directory::sync`. -/
def Dir.sync (d : Dir) (p : String) : Except IoErr Unit := d.syncRes p

/-- `Directory::sync_directory`. -/
def Dir.sync_directory (d : Dir) : Except IoErr Unit := d.syncDirRes

/-- `RAMDirectory::create()`: empty, every operation succeeds. -/
def RAMDirectory.create : Dir :=
  ⟨[], false, fun _ => Except.ok (), Except.ok ()⟩

/-- Outcome of an operation whose Rust counterpart returns `io::Result`:
success, a returned error, or a panic (an `.unwrap()` that fired — the
uncontrolled abort the spec forbids). -/
inductive Res (α : Type) where
  | ok : α → Res α
  | err : IoErr → Res α
  | panicked : Res α

deriving instance DecidableEq for Res

/-- `Index` from index.rs. The two `Arc<RwLock<_>>` cells are the `metas`
and `directory` fields; `metasPoisoned` / `directoryPoisoned` record whether
a previous holder of the corresponding lock terminated abnormally. -/
structure Index where
  metas : IndexMeta
  directory : Dir
  metasPoisoned : Bool
  directoryPoisoned : Bool

/-- `META_FILEPATH`. -/
def META_FILEPATH : String := "meta.json"

/-- `Index::from_directory`. -/
def Index.from_directory (d : Dir) (s : Schema) : Index :=
  ⟨IndexMeta.with_schema s, d, false, false⟩

/-- `Index::create_in_ram`. -/
def Index.create_in_ram (s : Schema) : Index :=
  Index.from_directory RAMDirectory.create s

/-- `Index::schema`: `self.metas.read().unwrap().schema.clone()` — panics if
the catalog lock is poisoned. -/
def Index.schema (i : Index) : Res Schema :=
  if i.metasPoisoned then Res.panicked else Res.ok i.metas.schema

/-- `Index::ro_directory`: a poisoned storage lock is mapped to an
`io::Error` of kind Other, carrying the source's message. -/
def Index.ro_directory (i : Index) : Except IoErr Dir :=
  if i.directoryPoisoned then Except.error (IoErr.other "Failed acquiring lock on directory.")
  else Except.ok i.directory

/-- `Index::rw_directory`: same mapping as `ro_directory`, for the write
guard. -/
def Index.rw_directory (i : Index) : Except IoErr Dir :=
  if i.directoryPoisoned then Except.error (IoErr.other "Failed acquiring lock on directory.")
  else Except.ok i.directory

/-- `SegmentComponent` from index.rs. -/
inductive SegmentComponent where
  | INFO
  | POSTINGS
  | TERMS
  | STORE

/-- `Segment`: the owning index handle plus the identity. -/
structure Segment where
  index : Index
  segment_id : SegmentId

/-- `Segment::path_suffix`. -/
def Segment.path_suffix : SegmentComponent → String
  | SegmentComponent.INFO => ".info"
  | SegmentComponent.POSTINGS => ".idx"
  | SegmentComponent.TERMS => ".term"
  | SegmentComponent.STORE => ".store"

/-- `Segment::relative_path`: the identity's simple (hex) string followed by
the component suffix. -/
def Segment.relative_path (seg : Segment) (c : SegmentComponent) : String :=
  seg.segment_id.uuid_string ++ Segment.path_suffix c

/-- `Index::segment`. -/
def Index.segment (i : Index) (sid : SegmentId) : Segment := ⟨i, sid⟩

/-- `Index::segment_ids`: `self.metas.read().unwrap()...` — panics if the
catalog lock is poisoned. -/
def Index.segment_ids (i : Index) : Res (List SegmentId) :=
  if i.metasPoisoned then Res.panicked else Res.ok i.metas.segments

/-- `Index::segments`: each identity of the catalog rehydrated into a
`Segment` bound to this index. -/
def Index.segments (i : Index) : Res (List Segment) :=
  match i.segment_ids with
  | Res.ok ids => Res.ok (ids.map i.segment)
  | Res.err e => Res.err e
  | Res.panicked => Res.panicked

/-- `Index::load_metas`: read `meta.json` in full (NotFound propagates as an
error), then `json::decode(&meta_content).unwrap()` — malformed content
panics — then replace the catalog wholesale under its write lock
(`.unwrap()` again). -/
def Index.load_metas (i : Index) : Index × Res Unit :=
  match i.ro_directory with
  | Except.error e => (i, Res.err e)
  | Except.ok d =>
    match d.open_read META_FILEPATH with
    | Except.error e => (i, Res.err e)
    | Except.ok content =>
      match IndexMeta.decode content with
      | none => (i, Res.panicked)
      | some m =>
        if i.metasPoisoned then (i, Res.panicked)
        else ({ i with metas := m }, Res.ok ())

/-- `Index::save_metas`: encode a snapshot of the catalog under its read
lock (`.unwrap()` — panics if poisoned), then `atomic_write` it under the
storage write guard obtained through `rw_directory`. -/
def Index.save_metas (i : Index) : Index × Res Unit :=
  if i.metasPoisoned then (i, Res.panicked)
  else
    match i.rw_directory with
    | Except.error e => (i, Res.err e)
    | Except.ok d =>
      match d.atomic_write META_FILEPATH i.metas.encode with
      | Except.error e => (i, Res.err e)
      | Except.ok d2 => ({ i with directory := d2 }, Res.ok ())

/-- `Index::publish_segment`: push the identity onto the catalog under its
write lock (`.unwrap()`), then `save_metas`. The push is not rolled back if
`save_metas` fails. -/
def Index.publish_segment (i : Index) (seg : Segment) : Index × Res Unit :=
  if i.metasPoisoned then (i, Res.panicked)
  else
    Index.save_metas { i with metas := ⟨i.metas.segments ++ [seg.segment_id], i.metas.schema⟩ }

/-- `Index::open`: attach to an existing directory (`MmapDirectory::create`
is outside src, so the backend is passed in), seed with `Schema::new()`, and
`load_metas`; any load failure is returned. -/
def Index.open_index (d : Dir) : Res Index :=
  match (Index.from_directory d Schema.new).load_metas with
  | (i2, Res.ok _) => Res.ok i2
  | (_, Res.err e) => Res.err e
  | (_, Res.panicked) => Res.panicked

/-- A durability call observed at the storage backend, for stating which
calls `Index::sync` makes and in what order. -/
inductive SyncCall where
  | sync : String → SyncCall
  | syncDir : SyncCall

deriving instance DecidableEq for SyncCall

/-- The loop body of `Index::sync`: for each component, re-acquire
`ro_directory` and call the backend's `sync` on the component's relative
path, stopping at the first error. Returns the trace of backend calls made
and the result. -/
def Index.syncComponents (i : Index) (seg : Segment) :
    List SegmentComponent → List SyncCall × Except IoErr Unit
  | [] => ([], Except.ok ())
  | c :: rest =>
    match i.ro_directory with
    | Except.error e => ([], Except.error e)
    | Except.ok d =>
      match d.sync (seg.relative_path c) with
      | Except.error e => ([SyncCall.sync (seg.relative_path c)], Except.error e)
      | Except.ok _ =>
        match Index.syncComponents i seg rest with
        | (tr, res) => (SyncCall.sync (seg.relative_path c) :: tr, res)

/-- `Index::sync`: sync the POSTINGS and TERMS components, then
`sync_directory`, with the trace of backend calls made. -/
def Index.sync (i : Index) (seg : Segment) : List SyncCall × Except IoErr Unit :=
  match Index.syncComponents i seg [SegmentComponent.POSTINGS, SegmentComponent.TERMS] with
  | (tr, Except.error e) => (tr, Except.error e)
  | (tr, Except.ok _) =>
    match i.ro_directory with
    | Except.error e => (tr, Except.error e)
    | Except.ok d => (tr ++ [SyncCall.syncDir], d.sync_directory)

/-- The sync sequence in the spec's words: call the storage's sync for
exactly the two given paths, then sync_directory, returning the first error
encountered. -/
def syncSpec (d : Dir) (p1 p2 : String) : List SyncCall × Except IoErr Unit :=
  match d.sync p1 with
  | Except.error e => ([SyncCall.sync p1], Except.error e)
  | Except.ok _ =>
    match d.sync p2 with
    | Except.error e => ([SyncCall.sync p1, SyncCall.sync p2], Except.error e)
    | Except.ok _ =>
      ([SyncCall.sync p1, SyncCall.sync p2, SyncCall.syncDir], d.sync_directory)

/-- Modelled from the spec: `Uuid::new_v4` (outside src) draws a fresh
random 128-bit identity; the entropy source is a stream of identities
consumed left to right from position `pos`. -/
structure Rng where
  stream : Nat → SegmentId
  pos : Nat

/-- `SegmentId::new()`: draw the next identity from the entropy source. -/
def SegmentId.new (r : Rng) : SegmentId × Rng :=
  (r.stream r.pos, ⟨r.stream, r.pos + 1⟩)

/-- `Index::new_segment`: a `Segment` bound to a freshly generated identity;
the index state is returned unchanged (the source takes `&self` and never
touches `metas`). -/
def Index.new_segment (i : Index) (r : Rng) : Segment × Index × Rng :=
  match SegmentId.new r with
  | (sid, r2) => (i.segment sid, i, r2)

/-- `n` successive calls to `new_segment` on the same index, collecting the
returned identities. -/
def Index.new_segments : Index → Rng → Nat → List SegmentId × Index × Rng
  | i, r, 0 => ([], i, r)
  | i, r, n + 1 =>
    match i.new_segment r with
    | (seg, i2, r2) =>
      match Index.new_segments i2 r2 n with
      | (ids, i3, r3) => (seg.segment_id :: ids, i3, r3)

/-
Interleaving model for concurrent publish. Per the source,
`Index::publish_segment` decomposes into three atomic lock-protected steps:
append (catalog write lock, line 133), snapshot/encode (catalog read lock
inside `save_metas`, lines 185-188), and persist/atomic_write (storage write
lock, line 189). Each lock is held only for its own step, so steps of
different publishers may interleave; `PubState.disk` is the persisted
catalog content.
-/

/-- One atomic step of some publisher (identified by number). -/
inductive PubEv where
  | append : Nat → PubEv
  | snapshot : Nat → PubEv
  | persist : Nat → PubEv

deriving instance DecidableEq for PubEv

/-- The publisher a step belongs to. -/
def PubEv.pid : PubEv → Nat
  | PubEv.append i => i
  | PubEv.snapshot i => i
  | PubEv.persist i => i

/-- Shared state during concurrent publishes: the in-memory catalog list,
the persisted catalog list, and each publisher's encoded snapshot. -/
structure PubState where
  mem : List SegmentId
  disk : List SegmentId
  snaps : List (Nat × List SegmentId)

deriving instance DecidableEq for PubState

/-- Effect of one step: append pushes publisher `i`'s identity onto the
in-memory list; snapshot records the current in-memory list as publisher
`i`'s encoded bytes; persist atomically writes publisher `i`'s snapshot to
the catalog file. -/
def pubStep (ids : Nat → SegmentId) (s : PubState) : PubEv → PubState
  | PubEv.append i => ⟨s.mem ++ [ids i], s.disk, s.snaps⟩
  | PubEv.snapshot i => ⟨s.mem, s.disk, (i, s.mem) :: s.snaps⟩
  | PubEv.persist i => ⟨s.mem, (s.snaps.lookup i).getD s.disk, s.snaps⟩

/-- Run a schedule of steps from the freshly created (empty) index state. -/
def runSched (ids : Nat → SegmentId) (evs : List PubEv) : PubState :=
  evs.foldl (pubStep ids) ⟨[], [], []⟩

/-- A schedule is a complete interleaved execution of `M` publishers: every
step belongs to a publisher below `M`, and each publisher performs exactly
its three steps, in program order append, snapshot, persist. -/
def wfSched (M : Nat) (evs : List PubEv) : Prop :=
  (∀ e ∈ evs, e.pid < M) ∧
  ∀ i < M, evs.filter (fun e => e.pid == i) = [PubEv.append i, PubEv.snapshot i, PubEv.persist i]

/- Concrete inputs used by the closed theorems and witnesses below. -/

/-- Identity of publisher 0 in the stale-snapshot interleaving. -/
def idA : SegmentId := ⟨[0]⟩

/-- Identity of publisher 1 in the stale-snapshot interleaving. -/
def idB : SegmentId := ⟨[1]⟩

/-- Identities per publisher number. -/
def pubIds : Nat → SegmentId := fun n => ⟨[n]⟩

/-- An interleaving of two complete publishes in which publisher 0 encodes
its snapshot before publisher 1 appends, and persists it last. -/
def staleSched : List PubEv :=
  [PubEv.append 0, PubEv.snapshot 0, PubEv.append 1, PubEv.snapshot 1,
   PubEv.persist 1, PubEv.persist 0]

/-- A storage state whose catalog file holds content that does not decode as
a catalog. -/
def garbageDir : Dir :=
  ⟨[(META_FILEPATH, Json.str "garbage")], false, fun _ => Except.ok (), Except.ok ()⟩

/-- A storage state with no catalog file. -/
def emptyDir : Dir :=
  ⟨[], false, fun _ => Except.ok (), Except.ok ()⟩

/-- A storage state whose `atomic_write` fails. -/
def failDir : Dir :=
  ⟨[], true, fun _ => Except.ok (), Except.ok ()⟩

/-- A sample schema for the concrete indices below. -/
def schema0 : Schema := ⟨"s"⟩

/-- An index whose catalog (metas) lock is poisoned. -/
def metasPoisonedIndex : Index :=
  ⟨IndexMeta.with_schema schema0, RAMDirectory.create, true, false⟩

/-- An index whose storage (directory) lock is poisoned. -/
def dirPoisonedIndex : Index :=
  ⟨IndexMeta.with_schema schema0, RAMDirectory.create, false, true⟩

/-- A fresh in-memory index used by witnesses. -/
def iRam : Index := Index.create_in_ram schema0

/-- A segment bound to `iRam` with a concrete identity. -/
def segRam : Segment := iRam.segment ⟨[7]⟩

/-- An index over the failing-write backend. -/
def iFail : Index := Index.from_directory failDir schema0

/-- A segment bound to `iFail`. -/
def segFail : Segment := iFail.segment ⟨[3]⟩

/-- A concrete entropy source: position `n` yields the identity with byte
list `[n]`, so distinct positions yield distinct identities. -/
def rng0 : Rng := ⟨fun n => ⟨[n]⟩, 0⟩

/-- A concrete 16-byte segment identity (bytes all 171 = 0xab). -/
def sid16 : SegmentId := ⟨List.replicate 16 171⟩

/-- A segment with the 16-byte identity, for the addressing witness. -/
def seg16 : Segment := iRam.segment sid16

/-- A concrete catalog with two well-formed identities, for the round-trip
witness. -/
def meta16 : IndexMeta :=
  ⟨[⟨List.replicate 16 0⟩, ⟨List.replicate 16 255⟩], ⟨"sch"⟩⟩

/- Helper lemmas. -/

theorem hexDigitVal_hexDigitChar (d : Nat) (h : d < 16) :
    hexDigitVal (hexDigitChar d) = some d := by
  interval_cases d <;> rfl

theorem hexFixed_split (w1 w2 hi : Nat) :
    ∀ lo, lo < 16 ^ w2 →
      hexFixed (w1 + w2) (hi * 16 ^ w2 + lo) = hexFixed w1 hi ++ hexFixed w2 lo := by
  induction w2 with
  | zero =>
    intro lo hlo
    have : lo = 0 := by omega
    subst this
    simp [hexFixed]
  | succ w ih =>
    intro lo hlo
    have hn : hi * 16 ^ (w + 1) + lo = 16 * (hi * 16 ^ w) + lo := by ring
    have hdiv : (16 * (hi * 16 ^ w) + lo) / 16 = hi * 16 ^ w + lo / 16 :=
      Nat.mul_add_div (by norm_num) _ _
    have hmod : (16 * (hi * 16 ^ w) + lo) % 16 = lo % 16 := Nat.mul_add_mod _ _ _
    have hlo2 : lo / 16 < 16 ^ w := by
      have : lo < 16 ^ w * 16 := by
        have := hlo
        rw [pow_succ] at this
        omega
      exact Nat.div_lt_of_lt_mul (by omega)
    have hw : w1 + (w + 1) = (w1 + w) + 1 := by omega
    rw [hn, hw]
    show hexFixed (w1 + w) ((16 * (hi * 16 ^ w) + lo) / 16) ++
        [hexDigitChar ((16 * (hi * 16 ^ w) + lo) % 16)] =
      hexFixed w1 hi ++ (hexFixed w (lo / 16) ++ [hexDigitChar (lo % 16)])
    rw [hdiv, hmod, ih (lo / 16) hlo2, List.append_assoc]

theorem hexFixed_two (b : Nat) (h : b < 256) :
    hexFixed 2 b = [hexDigitChar (b / 16), hexDigitChar (b % 16)] := by
  show hexFixed 1 (b / 16) ++ [hexDigitChar (b % 16)] = _
  have : b / 16 < 16 := by omega
  show (hexFixed 0 (b / 16 / 16) ++ [hexDigitChar (b / 16 % 16)]) ++ [hexDigitChar (b % 16)] = _
  rw [Nat.mod_eq_of_lt this]
  rfl

theorem flatten_hex_eq_hexFixed (bs : List Nat) (h : ∀ b ∈ bs, b < 256) :
    (bs.map (hexFixed 2)).flatten =
      hexFixed (2 * bs.length) (bs.foldl (fun a b => a * 256 + b) 0) := by
  induction bs using List.reverseRecOn with
  | nil => rfl
  | append_singleton l b ih =>
    have hb : b < 256 := h b (by simp)
    have hl : ∀ x ∈ l, x < 256 := fun x hx => h x (by simp [hx])
    rw [List.map_append, List.flatten_append, ih hl]
    simp only [List.map_cons, List.map_nil, List.flatten_cons, List.flatten_nil,
      List.append_nil, List.foldl_append, List.foldl_cons, List.foldl_nil,
      List.length_append, List.length_cons, List.length_nil]
    have hlen : 2 * (l.length + (0 + 1)) = 2 * l.length + 2 := by omega
    rw [hlen]
    have hval : (l.foldl (fun a b => a * 256 + b) 0) * 256 + b =
        (l.foldl (fun a b => a * 256 + b) 0) * 16 ^ 2 + b := by norm_num
    rw [hval, hexFixed_split (2 * l.length) 2 _ b (by norm_num [hb])]

theorem parseHexBytes_flatten (bs : List Nat) (h : ∀ b ∈ bs, b < 256) :
    parseHexBytes ((bs.map (hexFixed 2)).flatten) = some bs := by
  induction bs with
  | nil => rfl
  | cons b rest ih =>
    have hb : b < 256 := h b (by simp)
    have hrest : ∀ x ∈ rest, x < 256 := fun x hx => h x (by simp [hx])
    rw [List.map_cons, List.flatten_cons, hexFixed_two b hb]
    show parseHexBytes (hexDigitChar (b / 16) :: hexDigitChar (b % 16) ::
      (rest.map (hexFixed 2)).flatten) = some (b :: rest)
    rw [parseHexBytes]
    rw [hexDigitVal_hexDigitChar (b / 16) (by omega),
      hexDigitVal_hexDigitChar (b % 16) (by omega), ih hrest]
    have : b / 16 * 16 + b % 16 = b := by omega
    show some ((b / 16 * 16 + b % 16) :: rest) = some (b :: rest)
    rw [this]

theorem publish_segment_state (i : Index) (seg : Segment) (hp : i.metasPoisoned = false) :
    (i.publish_segment seg).1.metas.segments = i.metas.segments ++ [seg.segment_id] ∧
    (i.publish_segment seg).1.metasPoisoned = false := by
  unfold Index.publish_segment Index.save_metas Index.rw_directory Dir.atomic_write
  cases hd : i.directoryPoisoned <;> cases hw : i.directory.writeFails <;>
    simp [hp, hd, hw]

theorem decodeSegmentId_uuid_string (sid : SegmentId) (h : sid.WF) :
    decodeSegmentId (Json.str sid.uuid_string) = some sid := by
  unfold decodeSegmentId SegmentId.uuid_string
  show (match parseHexBytes ((sid.bytes.map (hexFixed 2)).flatten) with
    | some bs => if bs.length = 16 then some (⟨bs⟩ : SegmentId) else none
    | none => none) = some sid
  rw [parseHexBytes_flatten sid.bytes h.2]
  simp [h.1]

theorem decodeSegmentIds_map (ss : List SegmentId) (h : ∀ sid ∈ ss, sid.WF) :
    decodeSegmentIds (ss.map (fun s => Json.str s.uuid_string)) = some ss := by
  induction ss with
  | nil => rfl
  | cons s rest ih =>
    rw [List.map_cons, decodeSegmentIds,
      decodeSegmentId_uuid_string s (h s (by simp)),
      ih (fun x hx => h x (by simp [hx]))]

theorem new_segments_spec (i : Index) (n : Nat) : ∀ (r : Rng),
    Index.new_segments i r n =
      ((List.range n).map (fun k => r.stream (r.pos + k)), i, ⟨r.stream, r.pos + n⟩) := by
  induction n with
  | zero => intro r; simp [Index.new_segments]
  | succ n ih =>
    intro r
    rw [Index.new_segments]
    show (match i.new_segment r with
      | (seg, i2, r2) =>
        match Index.new_segments i2 r2 n with
        | (ids, i3, r3) => (seg.segment_id :: ids, i3, r3)) = _
    rw [show i.new_segment r = (i.segment (r.stream r.pos), i, ⟨r.stream, r.pos + 1⟩) from rfl]
    show (match Index.new_segments i ⟨r.stream, r.pos + 1⟩ n with
      | (ids, i3, r3) => ((i.segment (r.stream r.pos)).segment_id :: ids, i3, r3)) = _
    rw [ih ⟨r.stream, r.pos + 1⟩]
    have hmap : (List.range (n + 1)).map (fun k => r.stream (r.pos + k)) =
        r.stream r.pos :: (List.range n).map (fun k => r.stream (r.pos + 1 + k)) := by
      rw [List.range_succ_eq_map, List.map_cons, List.map_map]
      simp only [Nat.add_zero]
      congr 1
      apply List.map_congr_left
      intro k _
      show r.stream (r.pos + (k + 1)) = r.stream (r.pos + 1 + k)
      congr 1
      omega
    rw [hmap]
    show (r.stream r.pos :: (List.range n).map (fun k => r.stream (r.pos + 1 + k)), i,
        (⟨r.stream, r.pos + 1 + n⟩ : Rng)) =
      (r.stream r.pos :: (List.range n).map (fun k => r.stream (r.pos + 1 + k)), i,
        (⟨r.stream, r.pos + (n + 1)⟩ : Rng))
    have : r.pos + 1 + n = r.pos + (n + 1) := by omega
    rw [this]

/- Claim theorems. -/

/-- C1: the claim requires the compound "append identity to the in-memory
catalog, then persist the catalog" to behave as if atomic across concurrent
publishers, with no published identity dropped by a stale snapshot. The code
violates this: `staleSched` is a well-formed complete interleaving of two
publishers in which publisher 0 encodes its snapshot before publisher 1
appends and persists it last, so the in-memory catalog ends with both
distinct identities but the persisted catalog omits `idB`. -/
theorem publish_stale_snapshot_drops_identity :
    wfSched 2 staleSched ∧
    (runSched pubIds staleSched).mem = [idA, idB] ∧
    (runSched pubIds staleSched).mem.Nodup ∧
    (runSched pubIds staleSched).disk = [idA] ∧
    idB ∉ (runSched pubIds staleSched).disk :=
  ⟨⟨by decide, by decide⟩, by decide, by decide, by decide, by decide⟩

/-- C2: opening a location with no catalog file fails with NotFound, as the
claim states; but on a present, malformed catalog file `load_metas` calls
`json::decode(..).unwrap()` and panics instead of returning a typed decode
error — an uncontrolled abort the claim forbids. -/
theorem open_index_error_modes :
    Index.open_index emptyDir = Res.err IoErr.notFound ∧
    Index.open_index garbageDir = Res.panicked ∧
    (Index.from_directory garbageDir Schema.new).load_metas.2 = Res.panicked :=
  ⟨rfl, rfl, rfl⟩

/-- C3: the claim requires every failed guard acquisition to surface as an
error result. The storage guard does (`ro_directory` / `rw_directory` map a
poisoned lock to an Other-kind error), but the catalog guard does not:
`schema()` and `publish_segment` call `.unwrap()` on the poisoned catalog
lock and panic. -/
theorem catalog_guard_failure_panics :
    metasPoisonedIndex.schema = Res.panicked ∧
    (metasPoisonedIndex.publish_segment (metasPoisonedIndex.segment idA)).2 = Res.panicked ∧
    dirPoisonedIndex.ro_directory =
      Except.error (IoErr.other "Failed acquiring lock on directory.") ∧
    dirPoisonedIndex.rw_directory =
      Except.error (IoErr.other "Failed acquiring lock on directory.") :=
  ⟨rfl, rfl, rfl, rfl⟩

/-- C4: for an identity not yet in the catalog, segments() does not contain
it before `publish_segment`, and after a successful publish it contains the
identity exactly once. -/
theorem publish_segment_exactly_once (i : Index) (seg : Segment)
    (hp : i.metasPoisoned = false)
    (hnew : seg.segment_id ∉ i.metas.segments)
    (hok : (i.publish_segment seg).2 = Res.ok ()) :
    ∃ before after,
      i.segments = Res.ok before ∧
      (i.publish_segment seg).1.segments = Res.ok after ∧
      (before.map Segment.segment_id).count seg.segment_id = 0 ∧
      (after.map Segment.segment_id).count seg.segment_id = 1 := by
  obtain ⟨hseg, hp2⟩ := publish_segment_state i seg hp
  refine ⟨i.metas.segments.map i.segment,
    (i.publish_segment seg).1.metas.segments.map (i.publish_segment seg).1.segment,
    ?_, ?_, ?_, ?_⟩
  · simp [Index.segments, Index.segment_ids, hp]
  · simp [Index.segments, Index.segment_ids, hp2]
  · rw [List.map_map]
    rw [show (Segment.segment_id ∘ i.segment) = id from rfl, List.map_id]
    exact List.count_eq_zero.mpr hnew
  · rw [List.map_map]
    rw [show (Segment.segment_id ∘ (i.publish_segment seg).1.segment) = id from rfl,
      List.map_id, hseg, List.count_append, List.count_eq_zero.mpr hnew]
    simp

theorem publish_segment_exactly_once_witness :
    (iRam.metasPoisoned = false ∧ segRam.segment_id ∉ iRam.metas.segments ∧
      (iRam.publish_segment segRam).2 = Res.ok ()) ∧
    ∃ before after,
      iRam.segments = Res.ok before ∧
      (iRam.publish_segment segRam).1.segments = Res.ok after ∧
      (before.map Segment.segment_id).count segRam.segment_id = 0 ∧
      (after.map Segment.segment_id).count segRam.segment_id = 1 :=
  ⟨⟨rfl, by decide, rfl⟩, publish_segment_exactly_once iRam segRam rfl (by decide) rfl⟩

/-- C5: decoding the serialized form of a catalog value reproduces it
exactly, segment-list order included, for every catalog whose identities are
well-formed 16-byte values. -/
theorem meta_decode_encode (m : IndexMeta) (h : ∀ sid ∈ m.segments, sid.WF) :
    IndexMeta.decode m.encode = some m := by
  unfold IndexMeta.encode IndexMeta.decode
  show (match decodeSegmentIds (m.segments.map (fun s => Json.str s.uuid_string)) with
    | some ss => some (⟨ss, ⟨m.schema.raw⟩⟩ : IndexMeta)
    | none => none) = some m
  rw [decodeSegmentIds_map m.segments h]

theorem meta_decode_encode_witness :
    (∀ sid ∈ meta16.segments, sid.WF) ∧
    IndexMeta.decode meta16.encode = some meta16 :=
  ⟨by decide, meta_decode_encode meta16 (by decide)⟩

/-- C6: an index created in memory with schema S immediately reports schema
S, and its catalog starts with an empty segment list. -/
theorem create_in_ram_schema (s : Schema) :
    (Index.create_in_ram s).schema = Res.ok s ∧
    (Index.create_in_ram s).metas.segments = [] :=
  ⟨rfl, rfl⟩

/-- C7: for every well-formed identity and every component kind,
relative_path is the identity's fixed-width (32-digit) lowercase hexadecimal
string followed by the component's fixed suffix, with INFO ↦ .info,
POSTINGS ↦ .idx, TERMS ↦ .term, STORE ↦ .store. -/
theorem relative_path_hex (seg : Segment) (h : seg.segment_id.WF) :
    (∀ c, seg.relative_path c =
      String.mk (hexFixed 32 seg.segment_id.val) ++ Segment.path_suffix c) ∧
    Segment.path_suffix SegmentComponent.INFO = ".info" ∧
    Segment.path_suffix SegmentComponent.POSTINGS = ".idx" ∧
    Segment.path_suffix SegmentComponent.TERMS = ".term" ∧
    Segment.path_suffix SegmentComponent.STORE = ".store" := by
  refine ⟨?_, rfl, rfl, rfl, rfl⟩
  intro c
  unfold Segment.relative_path SegmentId.uuid_string SegmentId.val
  rw [flatten_hex_eq_hexFixed seg.segment_id.bytes h.2, h.1]

theorem relative_path_hex_witness :
    seg16.segment_id.WF ∧
    ((∀ c, seg16.relative_path c =
      String.mk (hexFixed 32 seg16.segment_id.val) ++ Segment.path_suffix c) ∧
    Segment.path_suffix SegmentComponent.INFO = ".info" ∧
    Segment.path_suffix SegmentComponent.POSTINGS = ".idx" ∧
    Segment.path_suffix SegmentComponent.TERMS = ".term" ∧
    Segment.path_suffix SegmentComponent.STORE = ".store") :=
  ⟨by decide, relative_path_hex seg16 (by decide)⟩

/-- C8: `Index::sync` calls the storage's sync for exactly the POSTINGS and
TERMS component paths of the segment, in that order, then sync_directory,
and returns the first error encountered — it coincides with the straight-
line sequence `syncSpec` whenever the storage guard is acquirable. -/
theorem sync_matches_spec (i : Index) (seg : Segment) (h : i.directoryPoisoned = false) :
    i.sync seg = syncSpec i.directory (seg.relative_path SegmentComponent.POSTINGS)
      (seg.relative_path SegmentComponent.TERMS) := by
  have hro : i.ro_directory = Except.ok i.directory := by
    simp [Index.ro_directory, h]
  cases h1 : i.directory.sync (seg.relative_path SegmentComponent.POSTINGS) with
  | error e => simp [Index.sync, Index.syncComponents, syncSpec, hro, h1]
  | ok u =>
    cases h2 : i.directory.sync (seg.relative_path SegmentComponent.TERMS) with
    | error e => simp [Index.sync, Index.syncComponents, syncSpec, hro, h1, h2]
    | ok u2 => simp [Index.sync, Index.syncComponents, syncSpec, hro, h1, h2]

theorem sync_matches_spec_witness :
    iRam.directoryPoisoned = false ∧
    iRam.sync segRam = syncSpec iRam.directory
      (segRam.relative_path SegmentComponent.POSTINGS)
      (segRam.relative_path SegmentComponent.TERMS) :=
  ⟨rfl, sync_matches_spec iRam segRam rfl⟩

/-- C9: when the entropy source yields pairwise-distinct draws (the spec's
probabilistic uniqueness contract for `Uuid::new_v4`), N calls to
new_segment return pairwise-distinct identities, and the index — hence its
catalog — is left unchanged. -/
theorem new_segment_ids_distinct (i : Index) (r : Rng) (n : Nat)
    (h : ((List.range n).map (fun k => r.stream (r.pos + k))).Nodup) :
    (Index.new_segments i r n).1.Nodup ∧
    (Index.new_segments i r n).2.1 = i := by
  rw [new_segments_spec i n r]
  exact ⟨h, rfl⟩

theorem new_segment_ids_distinct_witness :
    ((List.range 3).map (fun k => rng0.stream (rng0.pos + k))).Nodup ∧
    ((Index.new_segments iRam rng0 3).1.Nodup ∧
      (Index.new_segments iRam rng0 3).2.1 = iRam) :=
  ⟨by decide, new_segment_ids_distinct iRam rng0 3 (by decide)⟩

/-- C10: if the persist step of publish fails, the pushed identity stays in
the in-memory catalog (no rollback): publish returns the write error, yet a
subsequent segment enumeration on the resulting state includes the identity
that was never durably persisted. -/
theorem publish_no_rollback (i : Index) (seg : Segment)
    (hm : i.metasPoisoned = false) (hd : i.directoryPoisoned = false)
    (hw : i.directory.writeFails = true) :
    (i.publish_segment seg).2 = Res.err (IoErr.other "write failed") ∧
    (i.publish_segment seg).1.segment_ids =
      Res.ok (i.metas.segments ++ [seg.segment_id]) ∧
    seg.segment_id ∈ i.metas.segments ++ [seg.segment_id] := by
  refine ⟨?_, ?_, by simp⟩
  · unfold Index.publish_segment Index.save_metas Index.rw_directory Dir.atomic_write
    simp [hm, hd, hw]
  · obtain ⟨hseg, hp2⟩ := publish_segment_state i seg hm
    simp [Index.segment_ids, hp2, hseg]

theorem publish_no_rollback_witness :
    (iFail.metasPoisoned = false ∧ iFail.directoryPoisoned = false ∧
      iFail.directory.writeFails = true) ∧
    ((iFail.publish_segment segFail).2 = Res.err (IoErr.other "write failed") ∧
      (iFail.publish_segment segFail).1.segment_ids =
        Res.ok (iFail.metas.segments ++ [segFail.segment_id]) ∧
      segFail.segment_id ∈ iFail.metas.segments ++ [segFail.segment_id]) :=
  ⟨⟨rfl, rfl, rfl⟩, publish_no_rollback iFail segFail rfl rfl rfl⟩
